import Mathlib

/-!
Shallow embedding of the vixcpp/middleware request-processing core:
the Error/Result taxonomy (core/result.hpp), the exactly-once Next
continuation (core/next.hpp), Hooks and merge_hooks (core/hooks.hpp),
the HttpPipeline engine (pipeline.hpp), the Context response surface
(core/context.hpp) and the TokenBucket rate limiter
(utils/token_bucket.hpp).

Modelling conventions:
- C++ mutable state becomes explicit state passing.
- `double` arithmetic in the token bucket is modelled over `ℚ`;
  `static_cast<std::int64_t>` of a value that is positive in the relevant
  branch is truncation toward zero, i.e. `Int.floor` there.
- Exceptions become `Except Exn`, with `Exn` the `what()` string of the
  escaping `std::exception`.
- Hook and middleware callbacks over `Context &` become state
  transformers over an abstract context state type `γ`.
-/

namespace VixMw

/-! ## Error and normalize (core/result.hpp) -/

/-- `struct Error` from core/result.hpp: HTTP status, machine tag, human
message and a string-keyed details map (modelled as an association list). -/
structure Error where
  status  : Int := 500
  code    : String := "internal_server_error"
  message : String := "Internal Server Error"
  details : List (String × String) := []
deriving DecidableEq, Repr

/-- `clamp_http_status` from core/result.hpp. -/
def clamp_http_status (status : Int) : Int :=
  if status < 100 then 500
  else if status > 599 then 500
  else status

/-- `normalize` from core/result.hpp: clamp the status, default empty
code and message, leave details untouched. -/
def normalize (e : Error) : Error :=
  { e with
    status  := clamp_http_status e.status
    code    := if e.code = "" then "error" else e.code
    message := if e.message = "" then "Error" else e.message }

/-! ## Next (core/next.hpp) -/

/-- `class Next` from core/next.hpp: an optional zero-argument callable
(`std::function<void()> fn_`, empty when default constructed) plus the
`called_` flag.  The callable's side effect on the surrounding program is
modelled as a state transformer over a state type `σ`. -/
structure Next (σ : Type) where
  fn     : Option (σ → σ) := none
  called : Bool := false

/-- The `explicit Next(NextFn fn)` constructor: wrap a callable. -/
def Next.ofFn {σ : Type} (f : σ → σ) : Next σ :=
  { fn := some f, called := false }

/-- `Next::try_call`: returns false when already called; otherwise marks
the object called, runs the callable when one is present, returns true. -/
def Next.try_call {σ : Type} (n : Next σ) (s : σ) : Bool × Next σ × σ :=
  if n.called then
    (false, n, s)
  else
    (true, { n with called := true },
      match n.fn with
      | some f => f s
      | none => s)

/-- `Next::operator()`: `try_call` with the result discarded. -/
def Next.call {σ : Type} (n : Next σ) (s : σ) : Next σ × σ :=
  ((n.try_call s).2.1, (n.try_call s).2.2)

/-- The C++ copy constructor of `Next`: both `fn_` and `called_` are
copied, producing an independent object with the same fields. -/
def Next.copy {σ : Type} (n : Next σ) : Next σ := n

/-- Invoke a `Next` object `k` times in sequence (each invocation through
`operator()` / `try_call`, threading the object state and program state). -/
def Next.callN {σ : Type} : Nat → Next σ → σ → Next σ × σ
  | 0, n, s => (n, s)
  | k + 1, n, s =>
      let r := n.try_call s
      Next.callN k r.2.1 r.2.2

/-- The boolean results of invoking a `Next` object `k` times via
`try_call`, in order. -/
def Next.tryCallResults {σ : Type} : Nat → Next σ → σ → List Bool
  | 0, _, _ => []
  | k + 1, n, s =>
      let r := n.try_call s
      r.1 :: Next.tryCallResults k r.2.1 r.2.2

/-- The `Next() = default` constructor: no callable, not yet called. -/
def Next.defaultCtor (σ : Type) : Next σ :=
  { fn := none, called := false }

/-! ## Hooks and merge_hooks (core/hooks.hpp) -/

/-- `struct Hooks`: three optional callbacks (`std::function` fields,
absent when empty) over the context state `γ`. -/
structure Hooks (γ : Type) where
  on_begin : Option (γ → γ) := none
  on_end   : Option (γ → γ) := none
  on_error : Option (γ → Error → γ) := none

/-- The `if (h.on_begin) h.on_begin(ctx);` pattern: run the callback when
present, otherwise leave the context unchanged. -/
def Hooks.runBegin {γ : Type} (h : Hooks γ) (c : γ) : γ :=
  match h.on_begin with
  | some f => f c
  | none => c

/-- The `if (h.on_end) h.on_end(ctx);` pattern. -/
def Hooks.runEnd {γ : Type} (h : Hooks γ) (c : γ) : γ :=
  match h.on_end with
  | some f => f c
  | none => c

/-- The `if (h.on_error) h.on_error(ctx, err);` pattern. -/
def Hooks.runError {γ : Type} (h : Hooks γ) (c : γ) (e : Error) : γ :=
  match h.on_error with
  | some f => f c e
  | none => c

/-- Apply `list[i]`'s on_end when the index is in range (it always is in
the loops below); identity otherwise. -/
def optRunEnd {γ : Type} (h? : Option (Hooks γ)) (c : γ) : γ :=
  match h? with
  | some h => h.runEnd c
  | none => c

/-- Apply `list[i]`'s on_error when the index is in range; identity
otherwise. -/
def optRunError {γ : Type} (h? : Option (Hooks γ)) (c : γ) (e : Error) : γ :=
  match h? with
  | some h => h.runError c e
  | none => c

/-- The `for (std::size_t i = list.size(); i-- > 0;)` loop of the merged
`on_end`: apply the entries at indices `i - 1, i - 2, …, 0` in that
order. -/
def endLoop {γ : Type} (list : List (Hooks γ)) : Nat → γ → γ
  | 0, c => c
  | i + 1, c => endLoop list i (optRunEnd list[i]? c)

/-- The reverse index loop of the merged `on_error`. -/
def errLoop {γ : Type} (list : List (Hooks γ)) (e : Error) : Nat → γ → γ
  | 0, c => c
  | i + 1, c => errLoop list e i (optRunError list[i]? c e)

/-- `merge_hooks` from core/hooks.hpp: the merged `on_begin` is a
range-for over the list in order; the merged `on_end` / `on_error` are
the reverse index loops.  All three merged callbacks are present
(non-null lambdas). -/
def merge_hooks {γ : Type} (list : List (Hooks γ)) : Hooks γ :=
  { on_begin := some (fun c => list.foldl (fun c h => h.runBegin c) c)
    on_end   := some (fun c => endLoop list list.length c)
    on_error := some (fun c e => errLoop list e list.length c) }

/-- Modelled from the spec wording of §4.2: calling
`h1.on_begin(); h2.on_begin(); …; hn.on_begin()` in index order,
skipping absent ones. -/
def specBeginSeq {γ : Type} : List (Hooks γ) → γ → γ
  | [], c => c
  | h :: t, c => specBeginSeq t (h.runBegin c)

/-- Modelled from the spec wording of §4.2: calling the inputs'
`on_end` in reverse index order, `hn` first and `h1` last. -/
def specEndSeq {γ : Type} : List (Hooks γ) → γ → γ
  | [], c => c
  | h :: t, c => h.runEnd (specEndSeq t c)

/-- Modelled from the spec wording of §4.2: calling the inputs'
`on_error` in reverse index order, `hn` first and `h1` last. -/
def specErrSeq {γ : Type} (e : Error) : List (Hooks γ) → γ → γ
  | [], c => c
  | h :: t, c => h.runError (specErrSeq e t c) e

/-! ## Pipeline engine (pipeline.hpp) -/

/-- Exception payload: the `what()` string of an escaping
`std::exception`. -/
abbrev Exn := String

/-- One activation of a middleware on a context state.  A C++ middleware
body mutates the context and then either throws, returns without
invoking its `Next`, or invokes its `Next` (`NextOnce` defuses any
second invocation) and post-processes the downstream outcome — `post`
receives the outcome of the rest of the chain and may pass it through,
transform the context, swallow a downstream failure, or throw. -/
inductive MwAct (γ : Type) where
  | throw    : Exn → MwAct γ
  | stop     : γ → MwAct γ
  | callNext : γ → (Except Exn γ → Except Exn γ) → MwAct γ

/-- `MiddlewareFn`: the behaviour of a middleware as a function of the
context state it is activated on. -/
abbrev MiddlewareFn (γ : Type) := γ → MwAct γ

/-- Observable events of one pipeline run: hook invocations, middleware
activations (by index) and the final handler. -/
inductive Ev where
  | hbegin   : Ev
  | hend     : Ev
  | herror   : Error → Ev
  | mwEnter  : Nat → Ev
  | finalRun : Ev
deriving DecidableEq, Repr

/-- `step` from `HttpPipeline::run`: if the index is past the end, run
the final handler when present; otherwise activate the middleware at the
current index with a fresh `Next` wrapping the rest of the chain.
`i` is the index of the first middleware of `mws` in the full list. -/
def stepChain {γ : Type} (fin : Option (γ → Except Exn γ)) :
    List (MiddlewareFn γ) → Nat → γ → Except Exn γ × List Ev
  | [], _, c =>
      match fin with
      | none => (Except.ok c, [])
      | some f => (f c, [Ev.finalRun])
  | mw :: rest, i, c =>
      match mw c with
      | MwAct.throw e => (Except.error e, [Ev.mwEnter i])
      | MwAct.stop c1 => (Except.ok c1, [Ev.mwEnter i])
      | MwAct.callNext c1 post =>
          let r := stepChain fin rest (i + 1) c1
          (post r.1, Ev.mwEnter i :: r.2)

/-- The manufactured Error of the `catch (const std::exception &e)`
handler in `HttpPipeline::run`: status 500, code "unhandled_exception",
a fixed message, and `what()` captured under the "what" details key;
passed through `normalize` as in the source. -/
def unhandledError (e : Exn) : Error :=
  normalize
    { status := 500
      code := "unhandled_exception"
      message := "Unhandled exception escaped middleware pipeline"
      details := [("what", e)] }

/-- The on_begin part of a run's event trace: one `hbegin` exactly when
the hook is installed. -/
def beginEvs {γ : Type} (hooks : Hooks γ) : List Ev :=
  match hooks.on_begin with
  | some _ => [Ev.hbegin]
  | none => []

/-- The on_end part of a normally completing run's event trace: one
`hend` exactly when the hook is installed. -/
def endEvs {γ : Type} (hooks : Hooks γ) : List Ev :=
  match hooks.on_end with
  | some _ => [Ev.hend]
  | none => []

/-- `HttpPipeline::run`: fire `on_begin`, drive the chain, then fire
`on_end` on normal completion, or fire `on_error` with the manufactured
Error and re-raise the original failure when one escapes.  The result
pairs the outcome seen by the caller of `run` with the ordered event
trace. -/
def HttpPipeline.run {γ : Type} (hooks : Hooks γ)
    (mws : List (MiddlewareFn γ)) (fin : Option (γ → Except Exn γ))
    (c : γ) : Except Exn γ × List Ev :=
  let r := stepChain fin mws 0 (hooks.runBegin c)
  match r.1 with
  | Except.ok c2 =>
      (Except.ok (hooks.runEnd c2), beginEvs hooks ++ r.2 ++ endEvs hooks)
  | Except.error e =>
      match hooks.on_error with
      | some _ =>
          (Except.error e, beginEvs hooks ++ r.2 ++ [Ev.herror (unhandledError e)])
      | none => (Except.error e, beginEvs hooks ++ r.2)

/-! ## TokenBucket (utils/token_bucket.hpp)

The C++ class stores `double` state and reads a steady millisecond
clock; the embedding carries the clock reading `now` as an explicit
argument and models `double` arithmetic over `ℚ`. -/

/-- The fields of `class TokenBucket`. -/
structure TokenBucket where
  capacity       : ℚ := 0
  refill_per_sec : ℚ := 0
  tokens         : ℚ := 0
  last_ms        : ℤ := 0
deriving DecidableEq, Repr

/-- The `TokenBucket(double capacity, double refill_per_sec)`
constructor: both parameters clamped to ≥ 0, the bucket starts full,
`last_ms_` is the construction-time clock reading. -/
def TokenBucket.create (capacity refill_per_sec : ℚ) (now : ℤ) : TokenBucket :=
  { capacity := max 0 capacity
    refill_per_sec := max 0 refill_per_sec
    tokens := max 0 capacity
    last_ms := now }

/-- `TokenBucket::refill_locked_`: no-op when no steady time elapsed,
otherwise advance `last_ms_` and add `dt_sec * refill_per_sec` tokens,
clamped at capacity. -/
def TokenBucket.refill_locked (b : TokenBucket) (now : ℤ) : TokenBucket :=
  let dt_ms := now - b.last_ms
  if dt_ms ≤ 0 then b
  else
    { b with
      last_ms := now
      tokens := min b.capacity (b.tokens + ((dt_ms : ℚ) / 1000) * b.refill_per_sec) }

/-- `TokenBucket::try_consume`: `n ≤ 0` succeeds immediately without
touching the state; otherwise refill, then deduct when enough tokens are
available. -/
def TokenBucket.try_consume (b : TokenBucket) (n : ℚ) (now : ℤ) :
    Bool × TokenBucket :=
  if n ≤ 0 then (true, b)
  else
    let b1 := b.refill_locked now
    if n ≤ b1.tokens then (true, { b1 with tokens := b1.tokens - n })
    else (false, b1)

/-- `TokenBucket::retry_after_ms`: refill, then return 1000 when the
refill rate is ≤ 0, 0 when tokens already suffice, and otherwise
`max 1 ⌊missing / refill_per_sec * 1000⌋` — `static_cast<std::int64_t>`
truncates toward zero, which on the positive value of this branch is the
floor. -/
def TokenBucket.retry_after_ms (b : TokenBucket) (need : ℚ) (now : ℤ) :
    ℤ × TokenBucket :=
  let b1 := b.refill_locked now
  if b1.refill_per_sec ≤ 0 then (1000, b1)
  else if need ≤ b1.tokens then (0, b1)
  else
    let missing := need - b1.tokens
    let seconds := missing / b1.refill_per_sec
    (max 1 ⌊seconds * 1000⌋, b1)

/-- The `0 ≤ tokens ≤ capacity` well-formedness invariant of a bucket,
together with the non-negativity of the construction-clamped
parameters. -/
def TokenBucket.Wf (b : TokenBucket) : Prop :=
  0 ≤ b.capacity ∧ 0 ≤ b.refill_per_sec ∧ 0 ≤ b.tokens ∧ b.tokens ≤ b.capacity

instance (b : TokenBucket) : Decidable b.Wf := by
  unfold TokenBucket.Wf; infer_instance

/-! ## Context response surface (core/context.hpp) -/

/-- The JSON body written by `Context::send_error`: status, code,
message, and the details map only when non-empty. -/
structure ErrBody where
  status  : Int
  code    : String
  message : String
  details : Option (List (String × String))
deriving DecidableEq, Repr

/-- The observable response state touched by `Context::send_error`:
the response status and the JSON error body. -/
structure Response where
  status : Int := 200
  body   : Option ErrBody := none
deriving DecidableEq, Repr

/-- `Context::send_error(const Error &)`: build the JSON from the
Error's fields exactly as given (details omitted when empty), then
`res_->status(err.status).json(j)`. -/
def Context.send_error (_res : Response) (err : Error) : Response :=
  { status := err.status
    body := some
      { status := err.status
        code := err.code
        message := err.message
        details := if err.details = [] then none else some err.details } }

/-- Boolean recogniser for on_error events in a trace. -/
def Ev.isErr : Ev → Bool
  | Ev.herror _ => true
  | _ => false

/-- A middleware that throws, used as a concrete check input. -/
def wThrowMw : MiddlewareFn Nat := fun _ => MwAct.throw "boom"

/-- Hooks with only an on_error callback, a concrete check input. -/
def wErrHooks : Hooks Nat :=
  { on_begin := none, on_end := none, on_error := some fun c _ => c }

/-- A pass-through middleware: invokes its Next and forwards the
downstream outcome unchanged. -/
def wPassMw : MiddlewareFn Nat := fun s => MwAct.callNext s id

/-- A middleware that never invokes its Next. -/
def wStopMw : MiddlewareFn Nat := fun s => MwAct.stop s

/-- Hooks with only an on_end callback, a concrete check input. -/
def wEndHooks : Hooks Nat :=
  { on_begin := none, on_end := some fun c => c, on_error := none }

/-- The bucket of the spec's §8 check list (capacity 2, refill rate 0)
constructed at steady time 0. -/
def wBucket : TokenBucket := TokenBucket.create 2 0 0

/-- The capacity-1, 3-tokens-per-second bucket right after consuming its
only token at steady time 0. -/
def wDrainedBucket : TokenBucket := ((TokenBucket.create 1 3 0).try_consume 1 0).2

/-! ## Theorems -/

theorem Next.try_call_of_called {σ : Type} (n : Next σ) (s : σ)
    (h : n.called = true) : n.try_call s = (false, n, s) := by
  simp [Next.try_call, h]

theorem Next.callN_of_called {σ : Type} (k : Nat) (n : Next σ) (s : σ)
    (h : n.called = true) : Next.callN k n s = (n, s) := by
  induction k with
  | zero => rfl
  | succ k ih => simp [Next.callN, Next.try_call_of_called n s h, ih]

theorem Next.tryCallResults_of_called {σ : Type} (k : Nat) (n : Next σ)
    (s : σ) (h : n.called = true) :
    Next.tryCallResults k n s = List.replicate k false := by
  induction k with
  | zero => rfl
  | succ k ih =>
      simp [Next.tryCallResults, Next.try_call_of_called n s h, ih,
        List.replicate]

/-- C1: a Next built from a zero-argument callable, invoked k ≥ 1 times
(via operator() or try_call, which operator() wraps), executes the
wrapped callable exactly once — the program state after the k
invocations is `f s`; try_call returns true on the first invocation and
false on every subsequent one; and called() is false before the first
invocation and true after it. -/
theorem C1_next_exactly_once {σ : Type} (f : σ → σ) (s : σ) (k : Nat)
    (hk : 1 ≤ k) :
    (Next.ofFn f).called = false ∧
    ((Next.ofFn f).callN k s).2 = f s ∧
    ((Next.ofFn f).callN k s).1.called = true ∧
    (Next.ofFn f).tryCallResults k s = true :: List.replicate (k - 1) false := by
  obtain ⟨j, rfl⟩ : ∃ j, k = j + 1 := ⟨k - 1, (Nat.succ_pred_eq_of_pos hk).symm⟩
  have hstep : (Next.ofFn f).try_call s =
      (true, { fn := some f, called := true }, f s) := by
    simp [Next.ofFn, Next.try_call]
  refine ⟨rfl, ?_, ?_, ?_⟩
  · simp [Next.callN, hstep, Next.callN_of_called]
  · simp [Next.callN, hstep, Next.callN_of_called]
  · simp [Next.tryCallResults, hstep, Next.tryCallResults_of_called]

/-- Witness for C1 at the counter-incrementing callable `Nat.succ`,
invoked three times from counter 0. -/
theorem C1_next_exactly_once_witness :
    (Next.ofFn Nat.succ).called = false ∧
    ((Next.ofFn Nat.succ).callN 3 0).2 = Nat.succ 0 ∧
    ((Next.ofFn Nat.succ).callN 3 0).1.called = true ∧
    (Next.ofFn Nat.succ).tryCallResults 3 0 = true :: List.replicate (3 - 1) false :=
  C1_next_exactly_once Nat.succ 0 3 (by decide)

/-- C10: the at-most-once guarantee of Next is per object — a copy of an
uncalled Next is itself uncalled, and invoking the original and then a
copy made before that invocation runs the wrapped callable twice; and a
default-constructed Next (no callable) still returns true from its first
try_call, marks itself called, and leaves the program state unchanged. -/
theorem C10_per_object_and_empty {σ : Type} (f : σ → σ) (s : σ) :
    (Next.copy (Next.ofFn f)).called = false ∧
    ((Next.copy (Next.ofFn f)).call (((Next.ofFn f).call s).2)).2 = f (f s) ∧
    ((Next.defaultCtor σ).try_call s).1 = true ∧
    ((Next.defaultCtor σ).try_call s).2.1.called = true ∧
    ((Next.defaultCtor σ).try_call s).2.2 = s := by
  refine ⟨rfl, ?_, ?_, ?_, ?_⟩ <;>
    simp [Next.copy, Next.ofFn, Next.call, Next.try_call, Next.defaultCtor]

theorem foldl_runBegin_eq_specBeginSeq {γ : Type} (list : List (Hooks γ))
    (c : γ) : list.foldl (fun c h => h.runBegin c) c = specBeginSeq list c := by
  induction list generalizing c with
  | nil => rfl
  | cons h t ih => simp [specBeginSeq, List.foldl, ih]

theorem specEndSeq_append_singleton {γ : Type} (xs : List (Hooks γ))
    (h : Hooks γ) (c : γ) :
    specEndSeq (xs ++ [h]) c = specEndSeq xs (h.runEnd c) := by
  induction xs with
  | nil => rfl
  | cons x t ih => simp [specEndSeq, ih]

theorem specErrSeq_append_singleton {γ : Type} (e : Error)
    (xs : List (Hooks γ)) (h : Hooks γ) (c : γ) :
    specErrSeq e (xs ++ [h]) c = specErrSeq e xs (h.runError c e) := by
  induction xs with
  | nil => rfl
  | cons x t ih => simp [specErrSeq, ih]

theorem endLoop_eq_specEndSeq_take {γ : Type} (list : List (Hooks γ)) :
    ∀ i, i ≤ list.length → ∀ c, endLoop list i c = specEndSeq (list.take i) c := by
  intro i
  induction i with
  | zero => intro _ c; rfl
  | succ i ih =>
      intro hle c
      have hi : i < list.length := Nat.lt_of_succ_le hle
      have hget : list[i]? = some list[i] := List.getElem?_eq_getElem hi
      have htake : list.take (i + 1) = list.take i ++ [list[i]] :=
        (List.take_concat_get' list i hi).symm
      have hunf : endLoop list (i + 1) c = endLoop list i (list[i].runEnd c) := by
        rw [endLoop, hget, optRunEnd]
      rw [hunf, htake, specEndSeq_append_singleton]
      exact ih (Nat.le_of_succ_le hle) _

theorem errLoop_eq_specErrSeq_take {γ : Type} (list : List (Hooks γ))
    (e : Error) :
    ∀ i, i ≤ list.length → ∀ c, errLoop list e i c = specErrSeq e (list.take i) c := by
  intro i
  induction i with
  | zero => intro _ c; rfl
  | succ i ih =>
      intro hle c
      have hi : i < list.length := Nat.lt_of_succ_le hle
      have hget : list[i]? = some list[i] := List.getElem?_eq_getElem hi
      have htake : list.take (i + 1) = list.take i ++ [list[i]] :=
        (List.take_concat_get' list i hi).symm
      have hunf : errLoop list e (i + 1) c = errLoop list e i (list[i].runError c e) := by
        rw [errLoop, hget, optRunError]
      rw [hunf, htake, specErrSeq_append_singleton]
      exact ih (Nat.le_of_succ_le hle) _

/-- C2: the Hooks returned by merge_hooks runs on_begin over the inputs
in index order h1 … hn, and runs on_end and on_error over the inputs in
reverse index order, hn first and h1 last, absent callbacks skipped —
the merged callbacks agree with the spec's sequential compositions on
every context and error. -/
theorem C2_merge_hooks_order {γ : Type} (list : List (Hooks γ)) (c : γ)
    (e : Error) :
    (merge_hooks list).runBegin c = specBeginSeq list c ∧
    (merge_hooks list).runEnd c = specEndSeq list c ∧
    (merge_hooks list).runError c e = specErrSeq e list c := by
  refine ⟨?_, ?_, ?_⟩
  · have hb : (merge_hooks list).runBegin c =
        list.foldl (fun c h => h.runBegin c) c := rfl
    rw [hb, foldl_runBegin_eq_specBeginSeq]
  · have he : (merge_hooks list).runEnd c = endLoop list list.length c := rfl
    rw [he, endLoop_eq_specEndSeq_take list list.length le_rfl, List.take_length]
  · have hr : (merge_hooks list).runError c e = errLoop list e list.length c := rfl
    rw [hr, errLoop_eq_specErrSeq_take list e list.length le_rfl, List.take_length]

theorem clamp_http_status_range (s : Int) :
    100 ≤ clamp_http_status s ∧ clamp_http_status s ≤ 599 := by
  unfold clamp_http_status
  split_ifs <;> omega

/-- C9: normalize keeps an in-range status (100..599) and turns any
out-of-range status into 500; keeps a non-empty code/message and
replaces an empty one with a non-empty default; and leaves details
unchanged. -/
theorem C9_normalize_clamps_and_defaults (e : Error) :
    (normalize e).status =
      (if 100 ≤ e.status ∧ e.status ≤ 599 then e.status else 500) ∧
    (e.code ≠ "" → (normalize e).code = e.code) ∧
    (e.code = "" → (normalize e).code ≠ "") ∧
    (e.message ≠ "" → (normalize e).message = e.message) ∧
    (e.message = "" → (normalize e).message ≠ "") ∧
    (normalize e).details = e.details := by
  refine ⟨?_, ?_, ?_, ?_, ?_, rfl⟩
  · show clamp_http_status e.status = _
    unfold clamp_http_status
    split_ifs with h1 h2 h3 <;> first | rfl | omega
  · intro h
    show (if e.code = "" then "error" else e.code) = e.code
    simp [h]
  · intro h
    show (if e.code = "" then "error" else e.code) ≠ ""
    simp [h]
  · intro h
    show (if e.message = "" then "Error" else e.message) = e.message
    simp [h]
  · intro h
    show (if e.message = "" then "Error" else e.message) ≠ ""
    simp [h]

/-- Counterexample to C7 as stated: `Context::send_error` writes the
Error's fields unchanged, so an upstream Error with status 999 and empty
code and message leaves through the public response surface with an
out-of-range status and empty code/message. -/
theorem C7_counterexample :
    (Context.send_error {} { status := 999, code := "", message := "", details := [] }).status = 999 ∧
    ¬ ((999 : Int) ≤ 599) ∧
    (Context.send_error {} { status := 999, code := "", message := "", details := [] }).body.map ErrBody.code = some "" ∧
    (Context.send_error {} { status := 999, code := "", message := "", details := [] }).body.map ErrBody.message = some "" := by
  refine ⟨rfl, by decide, rfl, rfl⟩

/-- C7 (amended): `send_error` is a field-faithful passthrough of the
Error it is given; the valid-status / non-empty-code/message guarantee
holds for every Error routed through `normalize` before `send_error`,
which is what every in-repo call site does. -/
theorem C7_send_error_normalized (res : Response) (e : Error) :
    (Context.send_error res e).status = e.status ∧
    (Context.send_error res e).body.map ErrBody.code = some e.code ∧
    (Context.send_error res e).body.map ErrBody.message = some e.message ∧
    (100 ≤ (Context.send_error res (normalize e)).status ∧
      (Context.send_error res (normalize e)).status ≤ 599) ∧
    (Context.send_error res (normalize e)).body.map ErrBody.code ≠ some "" ∧
    (Context.send_error res (normalize e)).body.map ErrBody.message ≠ some "" := by
  refine ⟨rfl, rfl, rfl, clamp_http_status_range e.status, ?_, ?_⟩
  · show (some (if e.code = "" then "error" else e.code) : Option String) ≠ some ""
    split_ifs with h
    · decide
    · simpa using h
  · show (some (if e.message = "" then "Error" else e.message) : Option String) ≠ some ""
    split_ifs with h
    · decide
    · simpa using h

theorem TokenBucket.retry_after_ms_snd (b : TokenBucket) (need : ℚ)
    (now : ℤ) : (b.retry_after_ms need now).2 = b.refill_locked now := by
  simp only [TokenBucket.retry_after_ms]
  split_ifs <;> rfl

theorem TokenBucket.refill_locked_Wf (b : TokenBucket) (now : ℤ)
    (hwf : b.Wf) : (b.refill_locked now).Wf := by
  obtain ⟨hc, hr, ht0, htc⟩ := hwf
  simp only [TokenBucket.refill_locked]
  split_ifs with hdt
  · exact ⟨hc, hr, ht0, htc⟩
  · have hdtq : (0 : ℚ) ≤ ((now - b.last_ms : ℤ) : ℚ) := by
      have hz : (0 : ℤ) ≤ now - b.last_ms := by omega
      exact_mod_cast hz
    have hadd : 0 ≤ ((now - b.last_ms : ℤ) : ℚ) / 1000 * b.refill_per_sec :=
      mul_nonneg (div_nonneg hdtq (by norm_num)) hr
    exact ⟨hc, hr, le_min hc (add_nonneg ht0 hadd), min_le_left _ _⟩

/-- Counterexample to C5 as stated: for the drained capacity-1,
3-tokens-per-second bucket, retry_after_ms(1) returns 333 ms while the
claimed ceil((need - tokens) / refill_per_sec * 1000) is 334 — the cast
truncates, it does not round up; and for the capacity-2 zero-refill
bucket holding 2 ≥ 1 tokens, retry_after_ms(1) returns the fallback
1000, not the claimed 0 for sufficient tokens, because the
zero-refill-rate check precedes the sufficiency check. -/
theorem C5_counterexample :
    ((wDrainedBucket.retry_after_ms 1 0).1 = 333 ∧
      ⌈((1 : ℚ) - (wDrainedBucket.refill_locked 0).tokens) /
          (wDrainedBucket.refill_locked 0).refill_per_sec * 1000⌉ = 334) ∧
    ((1 : ℚ) ≤ (wBucket.refill_locked 0).tokens ∧
      (wBucket.retry_after_ms 1 0).1 = 1000) := by
  refine ⟨⟨?_, ?_⟩, ?_, ?_⟩ <;>
    norm_num [wDrainedBucket, wBucket, TokenBucket.create,
      TokenBucket.try_consume, TokenBucket.refill_locked,
      TokenBucket.retry_after_ms]
  rw [Int.ceil_eq_iff]
  norm_num

/-- C5 (amended): retry_after_ms(need) first applies the refill; it then
returns the fixed fallback of 1000 ms whenever the refill rate is 0
(this check precedes the sufficiency check, so it fires even when tokens
≥ need); returns 0 when the refill rate is positive and tokens ≥ need;
and otherwise returns ⌊(need - tokens) / refill_per_sec * 1000⌋
milliseconds — truncated, not rounded up — floored to a minimum of
1 ms. -/
theorem C5_retry_after_ms_amended (b : TokenBucket) (need : ℚ) (now : ℤ) :
    (b.retry_after_ms need now).2 = b.refill_locked now ∧
    ((b.refill_locked now).refill_per_sec ≤ 0 →
      (b.retry_after_ms need now).1 = 1000) ∧
    (0 < (b.refill_locked now).refill_per_sec →
      need ≤ (b.refill_locked now).tokens →
      (b.retry_after_ms need now).1 = 0) ∧
    (0 < (b.refill_locked now).refill_per_sec →
      (b.refill_locked now).tokens < need →
      (b.retry_after_ms need now).1 =
        max 1 ⌊(need - (b.refill_locked now).tokens) /
          (b.refill_locked now).refill_per_sec * 1000⌋) := by
  refine ⟨TokenBucket.retry_after_ms_snd b need now, ?_, ?_, ?_⟩ <;>
    simp only [TokenBucket.retry_after_ms]
  · intro h; rw [if_pos h]
  · intro h1 h2; rw [if_neg (not_le.mpr h1), if_pos h2]
  · intro h1 h2; rw [if_neg (not_le.mpr h1), if_neg (not_le.mpr h2)]

/-- C6: 0 ≤ tokens ≤ capacity holds at construction and is preserved by
refill, try_consume and retry_after_ms; try_consume with n > 0 either
deducts exactly n from the refilled token count and returns true or
returns false leaving the refilled state untouched; and try_consume with
n ≤ 0 returns true without mutating any state. -/
theorem C6_token_bucket_invariant (b : TokenBucket) (cap refill n need : ℚ)
    (now : ℤ) (hwf : b.Wf) :
    (TokenBucket.create cap refill now).Wf ∧
    (b.refill_locked now).Wf ∧
    ((b.try_consume n now).2).Wf ∧
    ((b.retry_after_ms need now).2).Wf ∧
    (0 < n →
      ((b.try_consume n now).1 = true ∧
        (b.try_consume n now).2 =
          { b.refill_locked now with
              tokens := (b.refill_locked now).tokens - n }) ∨
      ((b.try_consume n now).1 = false ∧
        (b.try_consume n now).2 = b.refill_locked now)) ∧
    (n ≤ 0 → b.try_consume n now = (true, b)) := by
  have hb1 := TokenBucket.refill_locked_Wf b now hwf
  obtain ⟨hc1, hr1, ht1, htc1⟩ := hb1
  refine ⟨?_, ?_, ?_, ?_, ?_, ?_⟩
  · exact ⟨le_max_left 0 cap, le_max_left 0 refill, le_max_left 0 cap, le_rfl⟩
  · exact ⟨hc1, hr1, ht1, htc1⟩
  · simp only [TokenBucket.try_consume]
    split_ifs with h0 h1
    · exact hwf
    · exact ⟨hc1, hr1, sub_nonneg.mpr h1,
        le_trans (sub_le_self _ (le_of_lt (not_le.mp h0))) htc1⟩
    · exact ⟨hc1, hr1, ht1, htc1⟩
  · rw [TokenBucket.retry_after_ms_snd]
    exact ⟨hc1, hr1, ht1, htc1⟩
  · intro hn
    simp only [TokenBucket.try_consume, if_neg (not_le.mpr hn)]
    split_ifs with h1
    · exact Or.inl ⟨rfl, rfl⟩
    · exact Or.inr ⟨rfl, rfl⟩
  · intro hn
    simp only [TokenBucket.try_consume, if_pos hn]

/-- Witness for C6 at the capacity-2, zero-refill bucket of the spec's
§8 check list, consuming one token at steady time 5. -/
theorem C6_token_bucket_invariant_witness :
    (TokenBucket.create 2 0 5).Wf ∧
    (wBucket.refill_locked 5).Wf ∧
    ((wBucket.try_consume 1 5).2).Wf ∧
    ((wBucket.retry_after_ms 1 5).2).Wf ∧
    (0 < (1 : ℚ) →
      ((wBucket.try_consume 1 5).1 = true ∧
        (wBucket.try_consume 1 5).2 =
          { wBucket.refill_locked 5 with
              tokens := (wBucket.refill_locked 5).tokens - 1 }) ∨
      ((wBucket.try_consume 1 5).1 = false ∧
        (wBucket.try_consume 1 5).2 = wBucket.refill_locked 5)) ∧
    ((1 : ℚ) ≤ 0 → wBucket.try_consume 1 5 = (true, wBucket)) :=
  C6_token_bucket_invariant wBucket 2 0 1 1 5
    (by norm_num [wBucket, TokenBucket.create, TokenBucket.Wf])

theorem mem_beginEvs {γ : Type} (hooks : Hooks γ) (ev : Ev)
    (h : ev ∈ beginEvs hooks) : ev = Ev.hbegin := by
  unfold beginEvs at h
  rcases hb : hooks.on_begin with _ | g
  · rw [hb] at h
    simp at h
  · rw [hb] at h
    simpa using h

theorem mem_endEvs {γ : Type} (hooks : Hooks γ) (ev : Ev)
    (h : ev ∈ endEvs hooks) : ev = Ev.hend := by
  unfold endEvs at h
  rcases hb : hooks.on_end with _ | g
  · rw [hb] at h
    simp at h
  · rw [hb] at h
    simpa using h

theorem endEvs_of_some {γ : Type} (hooks : Hooks γ) (g : γ → γ)
    (h : hooks.on_end = some g) : endEvs hooks = [Ev.hend] := by
  unfold endEvs
  rw [h]

theorem stepChain_events_shape {γ : Type} (fin : Option (γ → Except Exn γ)) :
    ∀ (mws : List (MiddlewareFn γ)) (i : Nat) (c : γ) (ev : Ev),
      ev ∈ (stepChain fin mws i c).2 →
      (∃ j, ev = Ev.mwEnter j) ∨ ev = Ev.finalRun := by
  intro mws
  induction mws with
  | nil =>
      intro i c ev hev
      cases fin with
      | none => simp [stepChain] at hev
      | some f =>
          simp [stepChain] at hev
          exact Or.inr hev
  | cons mw rest ih =>
      intro i c ev hev
      simp only [stepChain] at hev
      cases hmw : mw c with
      | throw e =>
          rw [hmw] at hev
          simp at hev
          exact Or.inl ⟨i, hev⟩
      | stop c1 =>
          rw [hmw] at hev
          simp at hev
          exact Or.inl ⟨i, hev⟩
      | callNext c1 post =>
          rw [hmw] at hev
          simp at hev
          rcases hev with h | h
          · exact Or.inl ⟨i, h⟩
          · exact ih (i + 1) c1 ev h

theorem stepChain_countP_isErr_zero {γ : Type}
    (fin : Option (γ → Except Exn γ)) (mws : List (MiddlewareFn γ))
    (i : Nat) (c : γ) :
    ((stepChain fin mws i c).2).countP Ev.isErr = 0 := by
  rw [List.countP_eq_zero]
  intro ev hev
  rcases stepChain_events_shape fin mws i c ev hev with ⟨j, rfl⟩ | rfl <;>
    simp [Ev.isErr]

theorem countP_isErr_beginEvs {γ : Type} (hooks : Hooks γ) :
    (beginEvs hooks).countP Ev.isErr = 0 := by
  rw [List.countP_eq_zero]
  intro ev hev
  rw [mem_beginEvs hooks ev hev]
  simp [Ev.isErr]

theorem countP_isErr_endEvs {γ : Type} (hooks : Hooks γ) :
    (endEvs hooks).countP Ev.isErr = 0 := by
  rw [List.countP_eq_zero]
  intro ev hev
  rw [mem_endEvs hooks ev hev]
  simp [Ev.isErr]

/-- C3: when a failure escapes the chain (or the final handler) and an
on_error hook is installed, run fires on_error exactly once with the
manufactured Error — status 500, the fixed code "unhandled_exception",
and the failure's message captured under the "what" details key — never
fires on_end, and re-raises the original failure unchanged to the
caller of run. -/
theorem C3_unhandled_failure {γ : Type} (hooks : Hooks γ)
    (mws : List (MiddlewareFn γ)) (fin : Option (γ → Except Exn γ)) (c : γ)
    (f : γ → Error → γ) (e : Exn) (evs : List Ev)
    (hf : hooks.on_error = some f)
    (hrun : stepChain fin mws 0 (hooks.runBegin c) = (Except.error e, evs)) :
    (HttpPipeline.run hooks mws fin c).1 = Except.error e ∧
    (HttpPipeline.run hooks mws fin c).2.countP Ev.isErr = 1 ∧
    (∀ err, Ev.herror err ∈ (HttpPipeline.run hooks mws fin c).2 →
      err = unhandledError e) ∧
    (unhandledError e).status = 500 ∧
    (unhandledError e).code = "unhandled_exception" ∧
    (unhandledError e).details = [("what", e)] ∧
    Ev.hend ∉ (HttpPipeline.run hooks mws fin c).2 := by
  have hshape : ∀ ev ∈ evs, (∃ j, ev = Ev.mwEnter j) ∨ ev = Ev.finalRun := by
    intro ev hev
    exact stepChain_events_shape fin mws 0 (hooks.runBegin c) ev
      (by rw [hrun]; exact hev)
  have hevs0 : evs.countP Ev.isErr = 0 := by
    have h := stepChain_countP_isErr_zero fin mws 0 (hooks.runBegin c)
    rwa [hrun] at h
  have hrunEq : HttpPipeline.run hooks mws fin c =
      (Except.error e, beginEvs hooks ++ evs ++ [Ev.herror (unhandledError e)]) := by
    simp only [HttpPipeline.run, hrun, hf]
  rw [hrunEq]
  refine ⟨rfl, ?_, ?_, ?_, ?_, rfl, ?_⟩
  · simp [List.countP_append, countP_isErr_beginEvs, hevs0, Ev.isErr]
  · intro err hmem
    rcases List.mem_append.mp hmem with hmem | hmem
    · rcases List.mem_append.mp hmem with hmem | hmem
      · exact absurd (mem_beginEvs hooks _ hmem) (by simp)
      · rcases hshape _ hmem with ⟨j, hj⟩ | hj <;> simp at hj
    · simpa using hmem
  · simp [unhandledError, normalize, clamp_http_status]
  · simp [unhandledError, normalize]
  · intro hmem
    rcases List.mem_append.mp hmem with hmem | hmem
    · rcases List.mem_append.mp hmem with hmem | hmem
      · exact absurd (mem_beginEvs hooks _ hmem) (by simp)
      · rcases hshape _ hmem with ⟨j, hj⟩ | hj <;> simp at hj
    · simp at hmem

/-- Witness for C3: a single middleware that throws "boom", an installed
on_error hook, no final handler. -/
theorem C3_unhandled_failure_witness :
    (HttpPipeline.run wErrHooks [wThrowMw] none 0).1 = Except.error "boom" ∧
    (HttpPipeline.run wErrHooks [wThrowMw] none 0).2.countP Ev.isErr = 1 ∧
    (∀ err, Ev.herror err ∈ (HttpPipeline.run wErrHooks [wThrowMw] none 0).2 →
      err = unhandledError "boom") ∧
    (unhandledError "boom").status = 500 ∧
    (unhandledError "boom").code = "unhandled_exception" ∧
    (unhandledError "boom").details = [("what", "boom")] ∧
    Ev.hend ∉ (HttpPipeline.run wErrHooks [wThrowMw] none 0).2 :=
  C3_unhandled_failure wErrHooks [wThrowMw] none 0 (fun c _ => c) "boom"
    [Ev.mwEnter 0] rfl rfl

theorem stepChain_pre_halt {γ : Type} (fin : Option (γ → Except Exn γ))
    (m : MiddlewareFn γ) (rest : List (MiddlewareFn γ))
    (hm : ∀ s, ∃ s2, m s = MwAct.stop s2) :
    ∀ (pre : List (MiddlewareFn γ)),
      (∀ mw ∈ pre, ∀ s, ∃ s2, mw s = MwAct.callNext s2 id) →
      ∀ (i : Nat) (c : γ), ∃ c2,
        stepChain fin (pre ++ m :: rest) i c =
          (Except.ok c2, (List.range' i (pre.length + 1)).map Ev.mwEnter) := by
  intro pre
  induction pre with
  | nil =>
      intro _ i c
      obtain ⟨s2, hs⟩ := hm c
      exact ⟨s2, by simp [stepChain, hs, List.range']⟩
  | cons mw pre ih =>
      intro hpre i c
      obtain ⟨c1, hc1⟩ := hpre mw (by simp) c
      obtain ⟨c2, hc2⟩ := ih (fun mw2 h2 s => hpre mw2 (by simp [h2]) s) (i + 1) c1
      refine ⟨c2, ?_⟩
      simp [stepChain, hc1, hc2, List.range'_succ]

/-- C4: when every middleware before position i passes through to its
Next and the middleware at position i never invokes its Next (and no
failure escapes), the run completes normally, no middleware after i is
activated, the final handler never runs, and on_end still fires when
installed. -/
theorem C4_short_circuit {γ : Type} (hooks : Hooks γ)
    (pre : List (MiddlewareFn γ)) (m : MiddlewareFn γ)
    (rest : List (MiddlewareFn γ)) (fin : Option (γ → Except Exn γ)) (c : γ)
    (hpre : ∀ mw ∈ pre, ∀ s, ∃ s2, mw s = MwAct.callNext s2 id)
    (hm : ∀ s, ∃ s2, m s = MwAct.stop s2) :
    (∃ c2, (HttpPipeline.run hooks (pre ++ m :: rest) fin c).1 = Except.ok c2) ∧
    (∀ j, Ev.mwEnter j ∈ (HttpPipeline.run hooks (pre ++ m :: rest) fin c).2 →
      j ≤ pre.length) ∧
    Ev.finalRun ∉ (HttpPipeline.run hooks (pre ++ m :: rest) fin c).2 ∧
    (∀ g, hooks.on_end = some g →
      Ev.hend ∈ (HttpPipeline.run hooks (pre ++ m :: rest) fin c).2) := by
  obtain ⟨c2, hchain⟩ :=
    stepChain_pre_halt fin m rest hm pre hpre 0 (hooks.runBegin c)
  have hrunEq : HttpPipeline.run hooks (pre ++ m :: rest) fin c =
      (Except.ok (hooks.runEnd c2),
        beginEvs hooks ++ (List.range' 0 (pre.length + 1)).map Ev.mwEnter ++
          endEvs hooks) := by
    simp only [HttpPipeline.run, hchain]
  rw [hrunEq]
  refine ⟨⟨hooks.runEnd c2, rfl⟩, ?_, ?_, ?_⟩
  · intro j hj
    rcases List.mem_append.mp hj with hj | hj
    · rcases List.mem_append.mp hj with hj | hj
      · exact absurd (mem_beginEvs hooks _ hj) (by simp)
      · obtain ⟨i0, hi0, hEq⟩ := List.mem_map.mp hj
        obtain rfl : i0 = j := by
          injection hEq
        have := List.mem_range'_1.mp hi0
        omega
    · exact absurd (mem_endEvs hooks _ hj) (by simp)
  · intro hmem
    rcases List.mem_append.mp hmem with hj | hj
    · rcases List.mem_append.mp hj with hj | hj
      · exact absurd (mem_beginEvs hooks _ hj) (by simp)
      · obtain ⟨i0, _, hEq⟩ := List.mem_map.mp hj
        exact absurd hEq (by simp)
    · exact absurd (mem_endEvs hooks _ hj) (by simp)
  · intro g hg
    rw [endEvs_of_some hooks g hg]
    simp

/-- Witness for C4: one pass-through middleware, then a middleware that
never calls its Next, then a throwing middleware that must never be
reached, with an installed on_end hook and a final handler. -/
theorem C4_short_circuit_witness :
    (∃ c2, (HttpPipeline.run wEndHooks ([wPassMw] ++ wStopMw :: [wThrowMw])
      (some fun s => Except.ok s) 0).1 = Except.ok c2) ∧
    (∀ j, Ev.mwEnter j ∈ (HttpPipeline.run wEndHooks
        ([wPassMw] ++ wStopMw :: [wThrowMw]) (some fun s => Except.ok s) 0).2 →
      j ≤ [wPassMw].length) ∧
    Ev.finalRun ∉ (HttpPipeline.run wEndHooks ([wPassMw] ++ wStopMw :: [wThrowMw])
      (some fun s => Except.ok s) 0).2 ∧
    (∀ g, wEndHooks.on_end = some g →
      Ev.hend ∈ (HttpPipeline.run wEndHooks ([wPassMw] ++ wStopMw :: [wThrowMw])
        (some fun s => Except.ok s) 0).2) :=
  C4_short_circuit wEndHooks [wPassMw] wStopMw [wThrowMw]
    (some fun s => Except.ok s) 0
    (by
      intro mw hmw s
      simp only [List.mem_singleton] at hmw
      refine ⟨s, ?_⟩
      rw [hmw, wPassMw])
    (fun s => ⟨s, rfl⟩)

/-- C8: in any single pipeline run, on_end and on_error are never both
invoked — the trace either contains no hend or contains no herror. -/
theorem C8_end_error_exclusive {γ : Type} (hooks : Hooks γ)
    (mws : List (MiddlewareFn γ)) (fin : Option (γ → Except Exn γ)) (c : γ) :
    Ev.hend ∉ (HttpPipeline.run hooks mws fin c).2 ∨
    (HttpPipeline.run hooks mws fin c).2.countP Ev.isErr = 0 := by
  rcases hres : stepChain fin mws 0 (hooks.runBegin c) with ⟨out, evs⟩
  have hshape : ∀ ev ∈ evs, (∃ j, ev = Ev.mwEnter j) ∨ ev = Ev.finalRun := by
    intro ev hev
    exact stepChain_events_shape fin mws 0 (hooks.runBegin c) ev
      (by rw [hres]; exact hev)
  have hevs0 : evs.countP Ev.isErr = 0 := by
    have h := stepChain_countP_isErr_zero fin mws 0 (hooks.runBegin c)
    rwa [hres] at h
  cases out with
  | ok c2 =>
      right
      have hrunEq : HttpPipeline.run hooks mws fin c =
          (Except.ok (hooks.runEnd c2),
            beginEvs hooks ++ evs ++ endEvs hooks) := by
        simp only [HttpPipeline.run, hres]
      rw [hrunEq]
      simp [List.countP_append, countP_isErr_beginEvs, countP_isErr_endEvs, hevs0]
  | error e =>
      left
      cases hf : hooks.on_error with
      | none =>
          have hrunEq : HttpPipeline.run hooks mws fin c =
              (Except.error e, beginEvs hooks ++ evs) := by
            simp only [HttpPipeline.run, hres, hf]
          rw [hrunEq]
          intro hmem
          rcases List.mem_append.mp hmem with hj | hj
          · exact absurd (mem_beginEvs hooks _ hj) (by simp)
          · rcases hshape _ hj with ⟨j, hj2⟩ | hj2 <;> simp at hj2
      | some f =>
          have hrunEq : HttpPipeline.run hooks mws fin c =
              (Except.error e,
                beginEvs hooks ++ evs ++ [Ev.herror (unhandledError e)]) := by
            simp only [HttpPipeline.run, hres, hf]
          rw [hrunEq]
          intro hmem
          rcases List.mem_append.mp hmem with hj | hj
          · rcases List.mem_append.mp hj with hj | hj
            · exact absurd (mem_beginEvs hooks _ hj) (by simp)
            · rcases hshape _ hj with ⟨j, hj2⟩ | hj2 <;> simp at hj2
          · simp at hj

end VixMw
